import Mathlib

/-!
Verification of the go_message_dispatcher core against its specification.

The development shallowly embeds the three components the claims are about:

* the PostgreSQL message repository (`GetUnsentMessages`, `MarkAsSent`),
  modelled as pure functions on an in-memory table of rows;
* the message service (`processSingleMessage`, `ProcessMessages`), modelled
  with an environment supplying the outcome of each SMS-provider send and
  each cache write;
* the Redis distributed lock (`Acquire`, `Release`, `Extend`, `IsHeld`),
  modelled as functions on the shared key's stored value and a handle record,
  plus a step relation for multi-handle runs with TTL expiry.

Machine integers are modelled as `Nat`; none of the embedded code overflows
or relies on fixed-width behaviour.  Network/driver errors of the database
itself are not modelled: in the source such an error is returned unchanged
to the caller and aborts the cycle, and no claim is about that path.
-/

namespace Dispatcher

/-- Row of the `messages` table (internal/domain/models.go, schema part_016):
`id SERIAL PRIMARY KEY`, `phone_number`, `content`, `sent BOOLEAN DEFAULT FALSE`,
`created_at TIMESTAMP`.  Timestamps are modelled as naturals. -/
structure Message where
  id : Nat
  phoneNumber : String
  content : String
  sent : Bool
  createdAt : Nat
deriving DecidableEq, Repr

/-- Shape filter of the claim query (part_005 lines 25-31): non-NULL and
non-empty phone number and content, phone length between 10 and 20,
content length at most 160.  (`IS NOT NULL` is vacuous for Lean strings.) -/
def validShape (m : Message) : Bool :=
  m.phoneNumber != "" && m.content != "" &&
  decide (10 ≤ m.phoneNumber.length) && decide (m.phoneNumber.length ≤ 20) &&
  decide (m.content.length ≤ 160)

/-- A row is claimable when it is unsent, shape-valid and not row-locked by a
concurrent claimant (`FOR UPDATE SKIP LOCKED`); `locked` says which ids a
concurrent transaction currently holds row locks on. -/
def claimable (locked : Nat → Bool) (m : Message) : Bool :=
  !m.sent && validShape m && !locked m.id

/-- Comparison used by `ORDER BY created_at ASC, id ASC` (part_005 line 32). -/
def msgLE (a b : Message) : Bool :=
  a.createdAt < b.createdAt || (a.createdAt == b.createdAt && a.id ≤ b.id)

/-- Insertion step of the sort modelling the SQL `ORDER BY`. -/
def insertMsg (m : Message) : List Message → List Message
  | [] => [m]
  | x :: xs => if msgLE m x then m :: x :: xs else x :: insertMsg m xs

/-- Sort modelling the SQL `ORDER BY created_at ASC, id ASC`. -/
def sortMsgs : List Message → List Message
  | [] => []
  | x :: xs => insertMsg x (sortMsgs xs)

/-- PostgreSQLMessageRepository.GetUnsentMessages (part_005 lines 21-63):
`SELECT ... WHERE sent = FALSE AND <shape filter> ORDER BY created_at ASC,
id ASC LIMIT $1 FOR UPDATE SKIP LOCKED`. -/
def GetUnsentMessages (table : List Message) (locked : Nat → Bool) (limit : Nat) :
    List Message :=
  (sortMsgs (table.filter (claimable locked))).take limit

/-- Outcome of `MarkAsSent`: `ok`, or the error built at part_005 line 79,
`"message %d was not found or already sent"`, returned when the `UPDATE`
affected zero rows. -/
inductive MarkResult where
  | ok
  | notFoundOrAlreadySent
deriving DecidableEq, Repr

/-- Effect of `UPDATE messages SET sent = TRUE WHERE id = $1 AND sent = FALSE`
on a single row (part_005 line 66). -/
def markRow (messageID : Nat) (m : Message) : Message :=
  if m.id = messageID ∧ m.sent = false then { m with sent := true } else m

/-- Number of rows the `UPDATE` affects. -/
def rowsAffected (table : List Message) (messageID : Nat) : Nat :=
  (table.filter (fun m => m.id == messageID && !m.sent)).length

/-- PostgreSQLMessageRepository.MarkAsSent (part_005 lines 65-83): run the
conditional `UPDATE`; if it affected zero rows return the
not-found-or-already-sent error, otherwise success. -/
def MarkAsSent (table : List Message) (messageID : Nat) : List Message × MarkResult :=
  (table.map (markRow messageID),
    if rowsAffected table messageID = 0 then MarkResult.notFoundOrAlreadySent
    else MarkResult.ok)

/-- Failure inside one message's processing (message_service.go lines 129-156):
the provider send failed (line 132) or the mark-as-sent failed (line 138). -/
inductive ProcessError where
  | sendFailed
  | markFailed
deriving DecidableEq, Repr

/-- Error returned by `ProcessMessages`: `"failed to process message %d: %w"`
(message_service.go line 121), wrapping the failing message's id and error. -/
inductive BatchError where
  | processFailed (id : Nat) (e : ProcessError)
deriving DecidableEq, Repr

/-- Environment of one batch run: the outcome of each SMS-provider send and
each cache write.  `sendOk m = true` means `smsProvider.SendMessage` succeeds
for message `m`; `cacheOk i` is the outcome of `cacheRepo.SetDeliveryCache`
for message id `i`. -/
structure Env where
  sendOk : Message → Bool
  cacheOk : Nat → Bool

/-- MessageService.processSingleMessage (message_service.go lines 129-156):
send via the provider; on success mark the message sent; on success of the
mark, write the delivery record to the cache, and a cache error is only
logged (line 152), never returned — both cache branches yield success. -/
def processSingleMessage (env : Env) (table : List Message) (m : Message) :
    List Message × Option ProcessError :=
  if env.sendOk m then
    match MarkAsSent table m.id with
    | (table2, MarkResult.ok) =>
        if env.cacheOk m.id then (table2, none) else (table2, none)
    | (table2, MarkResult.notFoundOrAlreadySent) =>
        (table2, some ProcessError.markFailed)
  else (table, some ProcessError.sendFailed)

/-- Result of one `ProcessMessages` call.  `sendAttempts` is ghost
instrumentation recording, in order, the ids of the messages for which
`processSingleMessage` was entered (i.e. `SendMessage` was invoked); the Go
function does not return it, but it makes "was attempted" provable. -/
structure BatchResult where
  table : List Message
  err : Option BatchError
  sendAttempts : List Nat
deriving DecidableEq, Repr

/-- Loop body of `ProcessMessages` (message_service.go lines 116-123): process
each message in order; on the first error, wrap it with the failing message's
id and return it, abandoning the rest of the batch. -/
def processLoop (env : Env) : List Message → List Message → BatchResult
  | table, [] => ⟨table, none, []⟩
  | table, m :: rest =>
    match processSingleMessage env table m with
    | (table2, none) =>
        let r := processLoop env table2 rest
        ⟨r.table, r.err, m.id :: r.sendAttempts⟩
    | (table2, some e) =>
        ⟨table2, some (BatchError.processFailed m.id e), [m.id]⟩

/-- MessageService.ProcessMessages (message_service.go lines 103-126): claim a
batch of at most 2 messages (the limit is hard-coded at line 105), return
success immediately when it is empty, otherwise run the per-message loop. -/
def ProcessMessages (env : Env) (locked : Nat → Bool) (table : List Message) :
    BatchResult :=
  processLoop env table (GetUnsentMessages table locked 2)

/-- Errors of the distributed lock (distributed_lock.go lines 14-17). -/
inductive LockError where
  | lockNotAcquired
  | lockNotHeld
deriving DecidableEq, Repr

/-- RedisLock handle (distributed_lock.go lines 26-33): its random token
(`value`, generated once per handle by `generateLockValue` and never changed)
and the local `acquired` flag.  Tokens are modelled as naturals; distinct
handles get distinct tokens. -/
structure RedisLock where
  token : Nat
  acquired : Bool
deriving DecidableEq, Repr

/-- RedisLock.Acquire (distributed_lock.go lines 46-61): `SET key value NX`.
The shared key's state is `store` (`none` = absent).  On success the handle
sets its `acquired` flag; if the key is present the call fails with
`ErrLockNotAcquired` and changes nothing. -/
def Acquire (store : Option Nat) (l : RedisLock) :
    Option Nat × RedisLock × Option LockError :=
  match store with
  | none => (some l.token, { l with acquired := true }, none)
  | some v => (some v, l, some LockError.lockNotAcquired)

/-- RedisLock.Release (distributed_lock.go lines 63-91): fail with
`ErrLockNotHeld` if the local flag is clear; otherwise run the atomic
get-compare-delete script — delete the key only if it still holds this
handle's token, else leave it, clear the flag and report `ErrLockNotHeld`. -/
def Release (store : Option Nat) (l : RedisLock) :
    Option Nat × RedisLock × Option LockError :=
  if l.acquired = false then (store, l, some LockError.lockNotHeld)
  else if store = some l.token then (none, { l with acquired := false }, none)
  else (store, { l with acquired := false }, some LockError.lockNotHeld)

/-- RedisLock.Extend (distributed_lock.go lines 93-120): fail with
`ErrLockNotHeld` if the local flag is clear; otherwise run the atomic
get-compare-expire script — refresh the TTL (value unchanged) only if the key
still holds this handle's token, else clear the flag and report
`ErrLockNotHeld`. -/
def Extend (store : Option Nat) (l : RedisLock) :
    Option Nat × RedisLock × Option LockError :=
  if l.acquired = false then (store, l, some LockError.lockNotHeld)
  else if store = some l.token then (store, l, none)
  else (store, { l with acquired := false }, some LockError.lockNotHeld)

/-- RedisLock.IsHeld (distributed_lock.go lines 122-124): the local flag. -/
def IsHeld (l : RedisLock) : Bool :=
  l.acquired

/-- State of a multi-handle run: the shared key's stored value and the
handles contending on it. -/
structure SysState where
  store : Option Nat
  handles : List RedisLock
deriving DecidableEq, Repr

/-- One step of a run: a handle calls `Acquire`, `Release` or `Extend`, or
the key's TTL elapses and the backend drops the entry. -/
inductive Step where
  | acquire (i : Nat)
  | release (i : Nat)
  | extend (i : Nat)
  | expire
deriving DecidableEq, Repr

/-- Apply one step.  A step naming a handle index out of range is a no-op. -/
def applyStep (s : SysState) : Step → SysState
  | Step.acquire i =>
    match s.handles.get? i with
    | none => s
    | some l =>
      let r := Acquire s.store l
      ⟨r.1, s.handles.set i r.2.1⟩
  | Step.release i =>
    match s.handles.get? i with
    | none => s
    | some l =>
      let r := Release s.store l
      ⟨r.1, s.handles.set i r.2.1⟩
  | Step.extend i =>
    match s.handles.get? i with
    | none => s
    | some l =>
      let r := Extend s.store l
      ⟨r.1, s.handles.set i r.2.1⟩
  | Step.expire => ⟨none, s.handles⟩

/-- Initial state of a run with `n` handles: the key is absent and every
handle is fresh.  `generateLockValue` gives each handle its own random token
(distributed_lock.go lines 126-133); distinctness is modelled by letting
handle `i` carry token `i`. -/
def initSys (n : Nat) : SysState :=
  ⟨none, (List.range n).map (fun i => ⟨i, false⟩)⟩

/-- Run a list of steps from the initial state. -/
def runSteps (n : Nat) (steps : List Step) : SysState :=
  steps.foldl applyStep (initSys n)

/-- Number of handles currently reporting `IsHeld() == true`. -/
def heldCount (s : SysState) : Nat :=
  (s.handles.filter IsHeld).length

/-- Concrete fixture: a valid unsent message with id 1. -/
def msg1 : Message :=
  ⟨1, "+15550000001", "first message", false, 1⟩

/-- Concrete fixture: a valid unsent message with id 2. -/
def msg2 : Message :=
  ⟨2, "+15550000002", "second message", false, 2⟩

/-- Concrete fixture: a two-message table, oldest first. -/
def tableTwo : List Message :=
  [msg1, msg2]

/-- Concrete fixture: no concurrent claimant holds any row lock. -/
def noLocks : Nat → Bool :=
  fun _ => false

/-- Environment where the send of message 1 fails and every other send
succeeds; cache writes succeed. -/
def envFailFirst : Env :=
  ⟨fun m => m.id != 1, fun _ => true⟩

/-- Environment where every send fails; cache writes succeed. -/
def envBothFail : Env :=
  ⟨fun _ => false, fun _ => true⟩

/-- Environment where every send succeeds and every cache write fails. -/
def envCacheDown : Env :=
  ⟨fun _ => true, fun _ => false⟩

/-- Environment where every send and every cache write succeeds. -/
def envAllOk : Env :=
  ⟨fun _ => true, fun _ => true⟩

/-- Concrete fixture: a one-message table (scenario A of the spec). -/
def tableOne : List Message :=
  [msg1]

/-- Concrete fixture: an already-delivered row. -/
def deliveredMsg : Message :=
  ⟨5, "+15550000005", "already delivered", true, 1⟩

/-- There is an unsent row with the given id (the situation in which the
`UPDATE` of `MarkAsSent` affects at least one row). -/
def hasUnsentRow (table : List Message) (messageID : Nat) : Prop :=
  ∃ row ∈ table, row.id = messageID ∧ row.sent = false

/-- Every row of the table with the given id is marked sent. -/
def allSentWithId (table : List Message) (messageID : Nat) : Prop :=
  ∀ row ∈ table, row.id = messageID → row.sent = true

/-- Positional invariant of multi-handle runs without TTL expiry: handle
tokens are exactly their indices (modelling distinct random tokens), and
every handle whose local flag is set actually owns the stored entry. -/
def LockInv (n : Nat) (s : SysState) : Prop :=
  s.handles.map (fun l => l.token) = List.range n ∧
  ∀ j x, s.handles.get? j = some x → x.acquired = true → s.store = some x.token

/-- Refinement target written from the claim's words (not from the source),
for comparison with the code: the claimed aggregate outcome is success, or a
failure summarizing the count of failed and the count of succeeded messages
of the batch. -/
inductive SpecBatchOutcome where
  | success
  | failure (failedCount succeededCount : Nat)
deriving DecidableEq, Repr

/-- Claimed aggregate outcome (from the claim's words, not from the source):
count send failures and successes over the whole claimed batch. -/
def specBatchOutcome (env : Env) (locked : Nat → Bool) (table : List Message) :
    SpecBatchOutcome :=
  let msgs := GetUnsentMessages table locked 2
  let failed := (msgs.filter (fun m => !env.sendOk m)).length
  let succeeded := (msgs.filter (fun m => env.sendOk m)).length
  if failed = 0 then SpecBatchOutcome.success
  else SpecBatchOutcome.failure failed succeeded

/-- The `ORDER BY` comparison is total. -/
lemma msgLE_total (a b : Message) : msgLE a b = true ∨ msgLE b a = true := by
  simp only [msgLE, Bool.or_eq_true, Bool.and_eq_true, decide_eq_true_eq, beq_iff_eq]
  omega

/-- The `ORDER BY` comparison is transitive. -/
lemma msgLE_trans {a b c : Message} (h1 : msgLE a b = true) (h2 : msgLE b c = true) :
    msgLE a c = true := by
  simp only [msgLE, Bool.or_eq_true, Bool.and_eq_true, decide_eq_true_eq, beq_iff_eq] at h1 h2 ⊢
  omega

/-- Inserting into the sort permutes consing. -/
lemma insertMsg_perm (m : Message) : ∀ (l : List Message), (insertMsg m l).Perm (m :: l)
  | [] => List.Perm.refl _
  | x :: xs => by
    by_cases h : msgLE m x = true
    · simp [insertMsg, h]
    · simp only [insertMsg, h, if_false, Bool.false_eq_true]
      exact ((insertMsg_perm m xs).cons x).trans (List.Perm.swap m x xs)

/-- The sort is a permutation of its input. -/
lemma sortMsgs_perm : ∀ (l : List Message), (sortMsgs l).Perm l
  | [] => List.Perm.refl _
  | x :: xs => (insertMsg_perm x (sortMsgs xs)).trans ((sortMsgs_perm xs).cons x)

/-- Insertion preserves sortedness. -/
lemma pairwise_insertMsg (m : Message) (l : List Message)
    (hl : l.Pairwise (fun a b => msgLE a b = true)) :
    (insertMsg m l).Pairwise (fun a b => msgLE a b = true) := by
  induction l with
  | nil => simp [insertMsg]
  | cons x xs ih =>
    obtain ⟨hx, hxs⟩ := List.pairwise_cons.mp hl
    by_cases h : msgLE m x = true
    · simp only [insertMsg, h, if_true]
      rw [List.pairwise_cons]
      refine ⟨?_, hl⟩
      intro b hb
      rcases List.mem_cons.mp hb with rfl | hb2
      · exact h
      · exact msgLE_trans h (hx b hb2)
    · simp only [insertMsg, h, if_false, Bool.false_eq_true]
      rw [List.pairwise_cons]
      constructor
      · intro b hb
        rcases List.mem_cons.mp ((insertMsg_perm m xs).mem_iff.mp hb) with hb1 | hb2
        · rw [hb1]
          rcases msgLE_total m x with ht | ht
          · exact absurd ht h
          · exact ht
        · exact hx b hb2
      · exact ih hxs

/-- The sort output is sorted under the `ORDER BY` comparison. -/
lemma pairwise_sortMsgs : ∀ (l : List Message),
    (sortMsgs l).Pairwise (fun a b => msgLE a b = true)
  | [] => List.Pairwise.nil
  | x :: xs => pairwise_insertMsg x (sortMsgs xs) (pairwise_sortMsgs xs)

/-- Every message the claim query returns is a claimable row of the table. -/
lemma mem_getUnsentMessages (table : List Message) (locked : Nat → Bool) (limit : Nat)
    (m : Message) (h : m ∈ GetUnsentMessages table locked limit) :
    m ∈ table ∧ claimable locked m = true := by
  have h1 : m ∈ sortMsgs (table.filter (claimable locked)) :=
    (List.take_sublist limit _).subset h
  have h2 : m ∈ table.filter (claimable locked) :=
    (sortMsgs_perm (table.filter (claimable locked))).mem_iff.mp h1
  exact List.mem_filter.mp h2

/-- Unpacking `claimable`: the row is unsent and shape-valid. -/
lemma claimable_unsent_valid (locked : Nat → Bool) (m : Message)
    (h : claimable locked m = true) : m.sent = false ∧ validShape m = true := by
  simp only [claimable, Bool.and_eq_true, Bool.not_eq_true'] at h
  exact ⟨h.1.1, h.1.2⟩

/-- C6.  Claim correctness: for every queue state and limit, the claim
operation returns at most `limit` messages, all rows of the table with
delivered flag false and valid shape (non-empty address and body, address
length within 10-20, body at most 160), ordered by creation time ascending;
rows violating the constraints are never returned. -/
theorem C6_getUnsentMessages_spec (table : List Message) (locked : Nat → Bool)
    (limit : Nat) :
    (GetUnsentMessages table locked limit).length ≤ limit ∧
    (∀ m ∈ GetUnsentMessages table locked limit,
      m ∈ table ∧ m.sent = false ∧ validShape m = true) ∧
    (GetUnsentMessages table locked limit).Pairwise
      (fun a b => a.createdAt ≤ b.createdAt) := by
  refine ⟨?_, ?_, ?_⟩
  · unfold GetUnsentMessages
    rw [List.length_take]
    exact min_le_left _ _
  · intro m hm
    obtain ⟨hmt, hcl⟩ := mem_getUnsentMessages table locked limit m hm
    obtain ⟨hs, hv⟩ := claimable_unsent_valid locked m hcl
    exact ⟨hmt, hs, hv⟩
  · have hp := pairwise_sortMsgs (table.filter (claimable locked))
    have h2 := List.Pairwise.sublist (List.take_sublist limit _) hp
    refine h2.imp ?_
    intro a b hab
    simp only [msgLE, Bool.or_eq_true, Bool.and_eq_true, decide_eq_true_eq, beq_iff_eq] at hab
    omega

/-- Witness for C6 at a concrete table and limit. -/
theorem C6_getUnsentMessages_spec_witness :
    (GetUnsentMessages tableTwo noLocks 2).length ≤ 2 ∧
    (∀ m ∈ GetUnsentMessages tableTwo noLocks 2,
      m ∈ tableTwo ∧ m.sent = false ∧ validShape m = true) ∧
    (GetUnsentMessages tableTwo noLocks 2).Pairwise
      (fun a b => a.createdAt ≤ b.createdAt) :=
  C6_getUnsentMessages_spec tableTwo noLocks 2

/-- The `UPDATE` never changes a row's id. -/
lemma markRow_id (messageID : Nat) (m : Message) : (markRow messageID m).id = m.id := by
  unfold markRow
  split <;> rfl

/-- The `UPDATE` never clears a sent flag. -/
lemma markRow_sent_mono (messageID : Nat) (m : Message) (h : m.sent = true) :
    (markRow messageID m).sent = true := by
  unfold markRow
  split
  · rfl
  · exact h

/-- The `UPDATE` leaves rows with a different id unchanged. -/
lemma markRow_of_ne (messageID : Nat) (m : Message) (h : ¬ m.id = messageID) :
    markRow messageID m = m := by
  unfold markRow
  rw [if_neg]
  rintro ⟨h1, _⟩
  exact h h1

/-- The `UPDATE` leaves already-sent rows unchanged. -/
lemma markRow_of_sent (messageID : Nat) (m : Message) (h : m.sent = true) :
    markRow messageID m = m := by
  unfold markRow
  rw [if_neg]
  rintro ⟨_, hs⟩
  rw [h] at hs
  exact Bool.noConfusion hs

/-- After the `UPDATE`, every row with the updated id is sent. -/
lemma sent_after_markRow (messageID : Nat) (m : Message) (h : m.id = messageID) :
    (markRow messageID m).sent = true := by
  unfold markRow
  rcases hs : m.sent with _ | _
  · rw [if_pos ⟨h, rfl⟩]
  · rw [if_neg (by rintro ⟨_, h2⟩; exact Bool.noConfusion h2)]
    exact hs

/-- With an unsent row present, the `UPDATE` affects at least one row. -/
lemma rowsAffected_pos (table : List Message) (messageID : Nat)
    (h : hasUnsentRow table messageID) : rowsAffected table messageID ≠ 0 := by
  obtain ⟨row, hmem, hid, hsent⟩ := h
  have hmemf : row ∈ table.filter (fun m => m.id == messageID && !m.sent) :=
    List.mem_filter.mpr ⟨hmem, by simp [hid, hsent]⟩
  unfold rowsAffected
  intro hlen
  rw [List.length_eq_zero] at hlen
  rw [hlen] at hmemf
  exact absurd hmemf (List.not_mem_nil _)

/-- With an unsent row present, `MarkAsSent` succeeds and performs the
`UPDATE`. -/
lemma markAsSent_ok (table : List Message) (messageID : Nat)
    (h : hasUnsentRow table messageID) :
    MarkAsSent table messageID = (table.map (markRow messageID), MarkResult.ok) := by
  unfold MarkAsSent
  rw [if_neg (rowsAffected_pos table messageID h)]

/-- Marking one id preserves the presence of an unsent row with another id. -/
lemma hasUnsentRow_map_markRow (table : List Message) (i j : Nat) (hne : i ≠ j)
    (h : hasUnsentRow table i) : hasUnsentRow (table.map (markRow j)) i := by
  obtain ⟨row, hmem, hid, hsent⟩ := h
  refine ⟨markRow j row, List.mem_map_of_mem _ hmem, ?_, ?_⟩
  · rw [markRow_id, hid]
  · rw [markRow_of_ne j row (by rw [hid]; exact hne)]
    exact hsent

/-- Marking any id preserves "every row with id `i` is sent". -/
lemma allSentWithId_map_markRow (table : List Message) (i j : Nat)
    (h : allSentWithId table i) : allSentWithId (table.map (markRow j)) i := by
  intro row hrow hid
  obtain ⟨r, hr, rfl⟩ := List.mem_map.mp hrow
  rw [markRow_id] at hid
  exact markRow_sent_mono j r (h r hr hid)

/-- After the `UPDATE` for id `i`, every row with id `i` is sent. -/
lemma allSentWithId_after_mark (table : List Message) (i : Nat) :
    allSentWithId (table.map (markRow i)) i := by
  intro row hrow hid
  obtain ⟨r, hr, rfl⟩ := List.mem_map.mp hrow
  rw [markRow_id] at hid
  exact sent_after_markRow i r hid

/-- The table after `processSingleMessage` is either unchanged or the result
of the `UPDATE` for the processed message's id. -/
lemma processSingleMessage_table (env : Env) (table : List Message) (m : Message) :
    (processSingleMessage env table m).1 = table ∨
    (processSingleMessage env table m).1 = table.map (markRow m.id) := by
  unfold processSingleMessage
  by_cases hs : env.sendOk m = true
  · rw [if_pos hs]
    unfold MarkAsSent
    by_cases hr : rowsAffected table m.id = 0 <;> simp [hr]
  · rw [if_neg hs]
    left
    rfl

/-- The loop only performs `UPDATE`s, so it preserves "every row with id `i`
is sent". -/
lemma processLoop_allSent (env : Env) :
    ∀ (msgs table : List Message) (i : Nat),
      allSentWithId table i → allSentWithId (processLoop env table msgs).table i := by
  intro msgs
  induction msgs with
  | nil =>
    intro table i h
    exact h
  | cons m rest ih =>
    intro table i h
    rcases hps : processSingleMessage env table m with ⟨table2, e⟩
    have htab := processSingleMessage_table env table m
    rw [hps] at htab
    have h2 : allSentWithId table2 i := by
      rcases htab with heq | heq
      · rw [show table2 = table from heq]
        exact h
      · rw [show table2 = table.map (markRow m.id) from heq]
        exact allSentWithId_map_markRow table i m.id h
    simp only [processLoop]
    rw [hps]
    cases e with
    | none => exact ih table2 i h2
    | some e0 => exact h2

/-- When the send succeeds and an unsent row with the message's id exists,
`processSingleMessage` succeeds and its only table effect is the `UPDATE`;
the cache write's outcome does not matter. -/
lemma processSingleMessage_ok (env : Env) (table : List Message) (m : Message)
    (hsend : env.sendOk m = true) (hrow : hasUnsentRow table m.id) :
    processSingleMessage env table m = (table.map (markRow m.id), none) := by
  unfold processSingleMessage
  rw [if_pos hsend, markAsSent_ok table m.id hrow]
  simp only [ite_self]

/-- When every message of the list sends successfully, the ids are pairwise
distinct and each has an unsent row, the loop succeeds: no error, every
message is attempted in order, and every processed id ends up sent. -/
lemma processLoop_success (env : Env) :
    ∀ (msgs table : List Message),
      msgs.Pairwise (fun a b => a.id ≠ b.id) →
      (∀ m ∈ msgs, hasUnsentRow table m.id) →
      (∀ m ∈ msgs, env.sendOk m = true) →
      (processLoop env table msgs).err = none ∧
      (processLoop env table msgs).sendAttempts = msgs.map (fun m => m.id) ∧
      ∀ m ∈ msgs, allSentWithId (processLoop env table msgs).table m.id := by
  intro msgs
  induction msgs with
  | nil =>
    intro table _ _ _
    exact ⟨rfl, rfl, fun m hm => absurd hm (List.not_mem_nil m)⟩
  | cons m rest ih =>
    intro table hpw hrows hsend
    obtain ⟨hne, hpw2⟩ := List.pairwise_cons.mp hpw
    have hps := processSingleMessage_ok env table m
      (hsend m (List.mem_cons_self m rest)) (hrows m (List.mem_cons_self m rest))
    have hrows2 : ∀ m2 ∈ rest, hasUnsentRow (table.map (markRow m.id)) m2.id := by
      intro m2 hm2
      exact hasUnsentRow_map_markRow table m2.id m.id (fun he => hne m2 hm2 he.symm)
        (hrows m2 (List.mem_cons_of_mem m hm2))
    obtain ⟨he, ha, hall⟩ := ih (table.map (markRow m.id)) hpw2 hrows2
      (fun m2 hm2 => hsend m2 (List.mem_cons_of_mem m hm2))
    simp only [processLoop]
    rw [hps]
    refine ⟨he, ?_, ?_⟩
    · simp only [List.map_cons]
      rw [ha]
    · intro m2 hm2
      rcases List.mem_cons.mp hm2 with hm2e | hm2r
      · rw [hm2e]
        exact processLoop_allSent env rest (table.map (markRow m.id)) m.id
          (allSentWithId_after_mark table m.id)
      · exact hall m2 hm2r

/-- The loop returns success exactly when every message's send succeeds, and
any returned error wraps the id of a message whose send failed. -/
lemma processLoop_err (env : Env) :
    ∀ (msgs table : List Message),
      msgs.Pairwise (fun a b => a.id ≠ b.id) →
      (∀ m ∈ msgs, hasUnsentRow table m.id) →
      (((processLoop env table msgs).err = none ↔
          ∀ m ∈ msgs, env.sendOk m = true) ∧
        ∀ e, (processLoop env table msgs).err = some e →
          ∃ m ∈ msgs, env.sendOk m = false ∧
            e = BatchError.processFailed m.id ProcessError.sendFailed) := by
  intro msgs
  induction msgs with
  | nil =>
    intro table _ _
    refine ⟨by simp [processLoop], ?_⟩
    intro e he
    exact Option.noConfusion he
  | cons m rest ih =>
    intro table hpw hrows
    obtain ⟨hne, hpw2⟩ := List.pairwise_cons.mp hpw
    by_cases hs : env.sendOk m = true
    · have hps := processSingleMessage_ok env table m hs (hrows m (List.mem_cons_self m rest))
      have hrows2 : ∀ m2 ∈ rest, hasUnsentRow (table.map (markRow m.id)) m2.id := by
        intro m2 hm2
        exact hasUnsentRow_map_markRow table m2.id m.id (fun he => hne m2 hm2 he.symm)
          (hrows m2 (List.mem_cons_of_mem m hm2))
      obtain ⟨hiff, herr⟩ := ih (table.map (markRow m.id)) hpw2 hrows2
      simp only [processLoop]
      rw [hps]
      constructor
      · constructor
        · intro hnone m2 hm2
          rcases List.mem_cons.mp hm2 with hm2e | hm2r
          · rw [hm2e]
            exact hs
          · exact (hiff.mp hnone) m2 hm2r
        · intro hall
          exact hiff.mpr (fun m2 hm2 => hall m2 (List.mem_cons_of_mem m hm2))
      · intro e he
        obtain ⟨m2, hm2, hf, hee⟩ := herr e he
        exact ⟨m2, List.mem_cons_of_mem m hm2, hf, hee⟩
    · have hps : processSingleMessage env table m = (table, some ProcessError.sendFailed) := by
        unfold processSingleMessage
        rw [if_neg hs]
      have hsf : env.sendOk m = false := by
        rcases h2 : env.sendOk m with _ | _
        · rfl
        · exact absurd h2 hs
      simp only [processLoop]
      rw [hps]
      constructor
      · constructor
        · intro hnone
          exact absurd hnone (by simp)
        · intro hall
          exact absurd (hall m (List.mem_cons_self m rest)) hs
      · intro e he
        exact ⟨m, List.mem_cons_self m rest, hsf, (Option.some.inj he).symm⟩

/-- `MarkAsSent` never clears a sent flag (row-wise, by position). -/
lemma markAsSent_sent_mono (table : List Message) (messageID k : Nat)
    (row row2 : Message) (h1 : table.get? k = some row)
    (h2 : (MarkAsSent table messageID).1.get? k = some row2)
    (hs : row.sent = true) : row2.sent = true := by
  unfold MarkAsSent at h2
  rw [List.get?_map, h1] at h2
  simp only [Option.map_some'] at h2
  rw [← Option.some.inj h2]
  exact markRow_sent_mono messageID row hs

/-- The batch loop never clears a sent flag (row-wise, by position). -/
lemma processLoop_sent_mono (env : Env) :
    ∀ (msgs table : List Message) (k : Nat) (row row2 : Message),
      table.get? k = some row →
      (processLoop env table msgs).table.get? k = some row2 →
      row.sent = true → row2.sent = true := by
  intro msgs
  induction msgs with
  | nil =>
    intro table k row row2 h1 h2 hs
    rw [show (processLoop env table []).table = table from rfl, h1] at h2
    rw [← Option.some.inj h2]
    exact hs
  | cons m rest ih =>
    intro table k row row2 h1 h2 hs
    rcases hps : processSingleMessage env table m with ⟨table2, e⟩
    have htab := processSingleMessage_table env table m
    rw [hps] at htab
    have hmid : ∃ rowMid, table2.get? k = some rowMid ∧ rowMid.sent = true := by
      rcases htab with heq | heq
      · rw [show table2 = table from heq]
        exact ⟨row, h1, hs⟩
      · rw [show table2 = table.map (markRow m.id) from heq]
        refine ⟨markRow m.id row, ?_, markRow_sent_mono m.id row hs⟩
        rw [List.get?_map, h1]
        rfl
    obtain ⟨rowMid, hm1, hm2⟩ := hmid
    simp only [processLoop] at h2
    rw [hps] at h2
    cases e with
    | none => exact ih table2 k rowMid row2 hm1 h2 hm2
    | some e0 =>
      have h3 : table2.get? k = some row2 := h2
      rw [hm1] at h3
      rw [← Option.some.inj h3]
      exact hm2

/-- The claimed batch has pairwise-distinct ids whenever the table does. -/
lemma getUnsent_pairwise_ids (table : List Message) (locked : Nat → Bool) (limit : Nat)
    (h : (table.map (fun m => m.id)).Nodup) :
    (GetUnsentMessages table locked limit).Pairwise (fun a b => a.id ≠ b.id) := by
  have h1 : ((table.filter (claimable locked)).map (fun m => m.id)).Nodup :=
    List.Nodup.sublist (List.Sublist.map _ (List.filter_sublist table)) h
  have h2 : ((sortMsgs (table.filter (claimable locked))).map (fun m => m.id)).Nodup := by
    rw [List.Perm.nodup_iff (List.Perm.map _ (sortMsgs_perm _))]
    exact h1
  have h3 : ((GetUnsentMessages table locked limit).map (fun m => m.id)).Nodup := by
    unfold GetUnsentMessages
    exact List.Nodup.sublist (List.Sublist.map _ (List.take_sublist _ _)) h2
  exact List.pairwise_map.mp h3

/-- Every claimed message has an unsent row (itself) in the table. -/
lemma hasUnsentRow_of_mem_batch (table : List Message) (locked : Nat → Bool)
    (limit : Nat) (m : Message) (h : m ∈ GetUnsentMessages table locked limit) :
    hasUnsentRow table m.id := by
  obtain ⟨hmt, hcl⟩ := mem_getUnsentMessages table locked limit m h
  exact ⟨m, hmt, rfl, (claimable_unsent_valid locked m hcl).1⟩

/-- C1 (code bug).  At a batch where message 1's send fails and message 2's
send would succeed, `ProcessMessages` returns message 1's wrapped error,
never attempts message 2 (`sendAttempts = [1]`) and leaves message 2 unsent:
the failure aborts the batch and propagates past the batch boundary instead
of being isolated to message 1, contradicting the source's own comment "Log
the error but continue processing other messages" (message_service.go lines
119-120) and the spec's isolation sentences. -/
theorem C1_batch_aborts_on_first_failure :
    envFailFirst.sendOk msg2 = true ∧
    ProcessMessages envFailFirst noLocks tableTwo =
      ⟨tableTwo, some (BatchError.processFailed 1 ProcessError.sendFailed), [1]⟩ ∧
    ∀ row ∈ (ProcessMessages envFailFirst noLocks tableTwo).table,
      row.id = 2 → row.sent = false := by
  decide

/-- C2 counterexample.  Marking an unsent row succeeds, but the second call
on the now-delivered row returns the not-found-or-already-sent error instead
of the success the claim asserts. -/
theorem C2_counterexample :
    (MarkAsSent tableTwo 1).2 = MarkResult.ok ∧
    (MarkAsSent (MarkAsSent tableTwo 1).1 1).2 =
      MarkResult.notFoundOrAlreadySent := by
  decide

/-- C2 amended.  MarkAsSent is idempotent at the state level: a second call
for the same id leaves the store exactly as the first call left it; but the
second call reports the not-found-or-already-sent error (the same signal as
for an unknown id), not success. -/
theorem C2_markAsSent_state_idempotent (table : List Message) (messageID : Nat) :
    (MarkAsSent (MarkAsSent table messageID).1 messageID).1 =
      (MarkAsSent table messageID).1 ∧
    (MarkAsSent (MarkAsSent table messageID).1 messageID).2 =
      MarkResult.notFoundOrAlreadySent := by
  have hfix : ∀ a ∈ table.map (markRow messageID), markRow messageID a = a := by
    intro a ha
    obtain ⟨r, hr, rfl⟩ := List.mem_map.mp ha
    by_cases hid : r.id = messageID
    · exact markRow_of_sent messageID _ (sent_after_markRow messageID r hid)
    · rw [markRow_of_ne messageID r hid, markRow_of_ne messageID r hid]
  have h0 : rowsAffected (table.map (markRow messageID)) messageID = 0 := by
    unfold rowsAffected
    rw [List.length_eq_zero, List.filter_eq_nil]
    intro a ha
    obtain ⟨r, hr, rfl⟩ := List.mem_map.mp ha
    by_cases hid : r.id = messageID
    · have hsent := sent_after_markRow messageID r hid
      simp [hsent]
    · rw [markRow_of_ne messageID r hid]
      simp [hid]
  have hmap : (table.map (markRow messageID)).map (markRow messageID)
      = table.map (markRow messageID) := by
    calc (table.map (markRow messageID)).map (markRow messageID)
        = (table.map (markRow messageID)).map (fun a => a) :=
          List.map_congr_left hfix
      _ = table.map (markRow messageID) := List.map_id' _
  constructor
  · show (table.map (markRow messageID)).map (markRow messageID) = _
    exact hmap
  · show (if rowsAffected (table.map (markRow messageID)) messageID = 0
        then MarkResult.notFoundOrAlreadySent else MarkResult.ok) = _
    rw [if_pos h0]

/-- C3 counterexample.  Two batches whose claimed count summaries differ (2
failures/0 successes vs 1 failure/1 success) produce identical
`ProcessMessages` results, so the returned failure cannot be a summary of
the counts of failed and succeeded messages. -/
theorem C3_counterexample :
    ProcessMessages envBothFail noLocks tableTwo =
      ProcessMessages envFailFirst noLocks tableTwo ∧
    specBatchOutcome envBothFail noLocks tableTwo =
      SpecBatchOutcome.failure 2 0 ∧
    specBatchOutcome envFailFirst noLocks tableTwo =
      SpecBatchOutcome.failure 1 1 := by
  decide

/-- C3 amended.  With pairwise-distinct table ids (they are a SERIAL primary
key), the batch call returns success iff every claimed message's send
succeeds, and any failure wraps the id of a message whose send failed — it
identifies the first failing message rather than summarizing counts. -/
theorem C3_aggregate_outcome (env : Env) (locked : Nat → Bool)
    (table : List Message) (hids : (table.map (fun m => m.id)).Nodup) :
    ((ProcessMessages env locked table).err = none ↔
      ∀ m ∈ GetUnsentMessages table locked 2, env.sendOk m = true) ∧
    ∀ e, (ProcessMessages env locked table).err = some e →
      ∃ m ∈ GetUnsentMessages table locked 2, env.sendOk m = false ∧
        e = BatchError.processFailed m.id ProcessError.sendFailed :=
  processLoop_err env (GetUnsentMessages table locked 2) table
    (getUnsent_pairwise_ids table locked 2 hids)
    (fun m hm => hasUnsentRow_of_mem_batch table locked 2 m hm)

/-- Witness for C3 at a concrete batch. -/
theorem C3_aggregate_outcome_witness :
    ((ProcessMessages envFailFirst noLocks tableTwo).err = none ↔
      ∀ m ∈ GetUnsentMessages tableTwo noLocks 2, envFailFirst.sendOk m = true) ∧
    ∀ e, (ProcessMessages envFailFirst noLocks tableTwo).err = some e →
      ∃ m ∈ GetUnsentMessages tableTwo noLocks 2, envFailFirst.sendOk m = false ∧
        e = BatchError.processFailed m.id ProcessError.sendFailed :=
  C3_aggregate_outcome envFailFirst noLocks tableTwo (by decide)

/-- C7.  An empty claim yields immediate success with nothing processed, and
a batch whose sends all succeed (in particular one smaller than the limit)
is processed in full and returns success — there is no error for holding
fewer messages than the limit. -/
theorem C7_underfull_batches_succeed (env : Env) (locked : Nat → Bool)
    (table : List Message) (hids : (table.map (fun m => m.id)).Nodup)
    (hsend : ∀ m ∈ GetUnsentMessages table locked 2, env.sendOk m = true) :
    (GetUnsentMessages table locked 2 = [] →
      ProcessMessages env locked table = ⟨table, none, []⟩) ∧
    (ProcessMessages env locked table).err = none ∧
    (ProcessMessages env locked table).sendAttempts =
      (GetUnsentMessages table locked 2).map (fun m => m.id) := by
  obtain ⟨he, ha, _⟩ := processLoop_success env (GetUnsentMessages table locked 2)
    table (getUnsent_pairwise_ids table locked 2 hids)
    (fun m hm => hasUnsentRow_of_mem_batch table locked 2 m hm) hsend
  refine ⟨?_, he, ha⟩
  intro hempty
  unfold ProcessMessages
  rw [hempty]
  rfl

/-- Witness for C7: one valid unsent message, batch limit 2, all sends
succeed. -/
theorem C7_underfull_batches_succeed_witness :
    (GetUnsentMessages tableOne noLocks 2 = [] →
      ProcessMessages envAllOk noLocks tableOne = ⟨tableOne, none, []⟩) ∧
    (ProcessMessages envAllOk noLocks tableOne).err = none ∧
    (ProcessMessages envAllOk noLocks tableOne).sendAttempts =
      (GetUnsentMessages tableOne noLocks 2).map (fun m => m.id) :=
  C7_underfull_batches_succeed envAllOk noLocks tableOne (by decide) (by decide)

/-- C8.  If every send succeeds while every cache write fails, the batch
still returns success and every claimed message ends up marked sent: cache
errors are swallowed and never reach the batch outcome. -/
theorem C8_cache_failure_swallowed (env : Env) (locked : Nat → Bool)
    (table : List Message) (hids : (table.map (fun m => m.id)).Nodup)
    (hcache : ∀ i, env.cacheOk i = false)
    (hsend : ∀ m ∈ GetUnsentMessages table locked 2, env.sendOk m = true) :
    (ProcessMessages env locked table).err = none ∧
    ∀ m ∈ GetUnsentMessages table locked 2,
      ∀ row ∈ (ProcessMessages env locked table).table,
        row.id = m.id → row.sent = true := by
  obtain ⟨he, _, hall⟩ := processLoop_success env (GetUnsentMessages table locked 2)
    table (getUnsent_pairwise_ids table locked 2 hids)
    (fun m hm => hasUnsentRow_of_mem_batch table locked 2 m hm) hsend
  exact ⟨he, hall⟩

/-- Witness for C8: both fixture messages, cache always failing. -/
theorem C8_cache_failure_swallowed_witness :
    (ProcessMessages envCacheDown noLocks tableTwo).err = none ∧
    ∀ m ∈ GetUnsentMessages tableTwo noLocks 2,
      ∀ row ∈ (ProcessMessages envCacheDown noLocks tableTwo).table,
        row.id = m.id → row.sent = true :=
  C8_cache_failure_swallowed envCacheDown noLocks tableTwo (by decide)
    (fun _ => rfl) (by decide)

/-- C9.  The delivered flag is monotone: neither `MarkAsSent` nor
`ProcessMessages` ever sets a sent row back to unsent (row-wise by table
position; `GetUnsentMessages` reads without modifying the table). -/
theorem C9_delivered_monotone (env : Env) (locked : Nat → Bool)
    (table : List Message) (messageID : Nat) :
    (∀ k row row2, table.get? k = some row →
      (MarkAsSent table messageID).1.get? k = some row2 →
      row.sent = true → row2.sent = true) ∧
    (∀ k row row2, table.get? k = some row →
      (ProcessMessages env locked table).table.get? k = some row2 →
      row.sent = true → row2.sent = true) := by
  constructor
  · intro k row row2 h1 h2 hs
    exact markAsSent_sent_mono table messageID k row row2 h1 h2 hs
  · intro k row row2 h1 h2 hs
    exact processLoop_sent_mono env (GetUnsentMessages table locked 2) table
      k row row2 h1 h2 hs

/-- Witness for C9 at a concrete already-delivered row. -/
theorem C9_delivered_monotone_witness : deliveredMsg.sent = true :=
  (C9_delivered_monotone envAllOk noLocks [deliveredMsg] 5).2 0
    deliveredMsg deliveredMsg rfl (by decide) rfl

/-- Setting a position to the value it already holds changes nothing. -/
lemma set_same {α : Type} :
    ∀ (l : List α) (i : Nat) (a : α), l.get? i = some a → l.set i a = l
  | [], _, _, h => Option.noConfusion h
  | x :: xs, 0, a, h => by
    rw [List.set]
    rw [← Option.some.inj h]
  | x :: xs, j + 1, a, h => by
    rw [List.set]
    rw [set_same xs j a h]

/-- Under the invariant, the handle at position `j` has token `j`, and `j`
is in range. -/
lemma lockInv_token (n : Nat) (s : SysState) (hinv : LockInv n s) (j : Nat)
    (x : RedisLock) (hj : s.handles.get? j = some x) : x.token = j ∧ j < n := by
  have h1 : (s.handles.map (fun l => l.token)).get? j = some x.token := by
    rw [List.get?_map, hj]
    rfl
  rw [hinv.1] at h1
  have hjn : j < n := by
    have h2 := (List.get?_eq_some.mp h1).1
    simpa using h2
  rw [List.get?_range hjn] at h1
  exact ⟨(Option.some.inj h1).symm, hjn⟩

/-- Under the invariant, any handle reporting held while handle `i` owns the
stored entry is handle `i` itself. -/
lemma lockInv_unique_holder (n : Nat) (s : SysState) (hinv : LockInv n s)
    (i j : Nat) (l x : RedisLock) (hgi : s.handles.get? i = some l)
    (hj : s.handles.get? j = some x) (hx : x.acquired = true)
    (hst : s.store = some l.token) : j = i := by
  have h1 := hinv.2 j x hj hx
  rw [hst] at h1
  have h2 := Option.some.inj h1
  obtain ⟨hti, _⟩ := lockInv_token n s hinv i l hgi
  obtain ⟨htj, _⟩ := lockInv_token n s hinv j x hj
  omega

/-- Replacing the handle at a position with one carrying the same token
preserves the token layout. -/
lemma tokens_set_same (n : Nat) (s : SysState)
    (htok : s.handles.map (fun l => l.token) = List.range n)
    (i : Nat) (l l2 : RedisLock) (hgi : s.handles.get? i = some l)
    (ht2 : l2.token = l.token) (hin : i < n) (hti : l.token = i) :
    (s.handles.set i l2).map (fun l => l.token) = List.range n := by
  rw [List.map_set, htok]
  show (List.range n).set i l2.token = List.range n
  rw [ht2, hti]
  exact set_same _ i i (List.get?_range hin)

/-- The initial state satisfies the invariant. -/
lemma lockInv_init (n : Nat) : LockInv n (initSys n) := by
  constructor
  · show ((List.range n).map (fun i => (⟨i, false⟩ : RedisLock))).map
        (fun l => l.token) = List.range n
    rw [List.map_map]
    show (List.range n).map (fun i => i) = List.range n
    exact List.map_id' _
  · intro j x hj hx
    exfalso
    rw [show (initSys n).handles
        = (List.range n).map (fun i => (⟨i, false⟩ : RedisLock)) from rfl] at hj
    rw [List.get?_map] at hj
    rcases hr : (List.range n).get? j with _ | v
    · rw [hr] at hj
      exact Option.noConfusion hj
    · rw [hr] at hj
      have hx2 : (⟨v, false⟩ : RedisLock) = x := Option.some.inj hj
      rw [← hx2] at hx
      exact Bool.noConfusion hx

/-- Every non-expiry step preserves the invariant. -/
lemma lockInv_applyStep (n : Nat) (s : SysState) (hinv : LockInv n s)
    (st : Step) (hst : st ≠ Step.expire) : LockInv n (applyStep s st) := by
  obtain ⟨htok, hacq⟩ := hinv
  cases st with
  | expire => exact absurd rfl hst
  | acquire i =>
    simp only [applyStep]
    cases hgi : s.handles.get? i with
    | none => exact ⟨htok, hacq⟩
    | some l =>
      obtain ⟨hti, hin⟩ := lockInv_token n s ⟨htok, hacq⟩ i l hgi
      cases hs : s.store with
      | none =>
        show LockInv n ⟨some l.token, s.handles.set i { l with acquired := true }⟩
        constructor
        · exact tokens_set_same n s htok i l { l with acquired := true } hgi rfl hin hti
        · intro j x hj hx
          by_cases hij : j = i
          · subst hij
            rw [List.get?_set_eq, hgi] at hj
            have hx2 : { l with acquired := true } = x := Option.some.inj hj
            rw [← hx2]
          · rw [List.get?_set_ne _ _ (fun heq => hij heq.symm)] at hj
            have h2 := hacq j x hj hx
            rw [hs] at h2
            exact Option.noConfusion h2
      | some v =>
        show LockInv n ⟨some v, s.handles.set i l⟩
        rw [set_same s.handles i l hgi, ← hs]
        exact ⟨htok, hacq⟩
  | release i =>
    simp only [applyStep]
    cases hgi : s.handles.get? i with
    | none => exact ⟨htok, hacq⟩
    | some l =>
      obtain ⟨hti, hin⟩ := lockInv_token n s ⟨htok, hacq⟩ i l hgi
      show LockInv n ⟨(Release s.store l).1, s.handles.set i (Release s.store l).2.1⟩
      rcases hla : l.acquired with _ | _
      · have hrel : Release s.store l = (s.store, l, some LockError.lockNotHeld) := by
          unfold Release
          rw [if_pos hla]
        rw [hrel]
        show LockInv n ⟨s.store, s.handles.set i l⟩
        rw [set_same s.handles i l hgi]
        exact ⟨htok, hacq⟩
      · by_cases hso : s.store = some l.token
        · have hrel : Release s.store l
              = (none, { l with acquired := false }, none) := by
            unfold Release
            rw [if_neg (by rw [hla]; exact Bool.noConfusion), if_pos hso]
          rw [hrel]
          show LockInv n ⟨none, s.handles.set i { l with acquired := false }⟩
          constructor
          · exact tokens_set_same n s htok i l { l with acquired := false } hgi rfl hin hti
          · intro j x hj hx
            exfalso
            by_cases hij : j = i
            · subst hij
              rw [List.get?_set_eq, hgi] at hj
              have hx2 : { l with acquired := false } = x := Option.some.inj hj
              rw [← hx2] at hx
              exact Bool.noConfusion hx
            · rw [List.get?_set_ne _ _ (fun heq => hij heq.symm)] at hj
              exact hij (lockInv_unique_holder n s ⟨htok, hacq⟩ i j l x hgi hj hx hso)
        · have hrel : Release s.store l
              = (s.store, { l with acquired := false }, some LockError.lockNotHeld) := by
            unfold Release
            rw [if_neg (by rw [hla]; exact Bool.noConfusion), if_neg hso]
          rw [hrel]
          show LockInv n ⟨s.store, s.handles.set i { l with acquired := false }⟩
          constructor
          · exact tokens_set_same n s htok i l { l with acquired := false } hgi rfl hin hti
          · intro j x hj hx
            by_cases hij : j = i
            · subst hij
              rw [List.get?_set_eq, hgi] at hj
              have hx2 : { l with acquired := false } = x := Option.some.inj hj
              rw [← hx2] at hx
              exact absurd hx Bool.noConfusion
            · rw [List.get?_set_ne _ _ (fun heq => hij heq.symm)] at hj
              exact hacq j x hj hx
  | extend i =>
    simp only [applyStep]
    cases hgi : s.handles.get? i with
    | none => exact ⟨htok, hacq⟩
    | some l =>
      obtain ⟨hti, hin⟩ := lockInv_token n s ⟨htok, hacq⟩ i l hgi
      show LockInv n ⟨(Extend s.store l).1, s.handles.set i (Extend s.store l).2.1⟩
      rcases hla : l.acquired with _ | _
      · have hext : Extend s.store l = (s.store, l, some LockError.lockNotHeld) := by
          unfold Extend
          rw [if_pos hla]
        rw [hext]
        show LockInv n ⟨s.store, s.handles.set i l⟩
        rw [set_same s.handles i l hgi]
        exact ⟨htok, hacq⟩
      · by_cases hso : s.store = some l.token
        · have hext : Extend s.store l = (s.store, l, none) := by
            unfold Extend
            rw [if_neg (by rw [hla]; exact Bool.noConfusion), if_pos hso]
          rw [hext]
          show LockInv n ⟨s.store, s.handles.set i l⟩
          rw [set_same s.handles i l hgi]
          exact ⟨htok, hacq⟩
        · have hext : Extend s.store l
              = (s.store, { l with acquired := false }, some LockError.lockNotHeld) := by
            unfold Extend
            rw [if_neg (by rw [hla]; exact Bool.noConfusion), if_neg hso]
          rw [hext]
          show LockInv n ⟨s.store, s.handles.set i { l with acquired := false }⟩
          constructor
          · exact tokens_set_same n s htok i l { l with acquired := false } hgi rfl hin hti
          · intro j x hj hx
            by_cases hij : j = i
            · subst hij
              rw [List.get?_set_eq, hgi] at hj
              have hx2 : { l with acquired := false } = x := Option.some.inj hj
              rw [← hx2] at hx
              exact absurd hx Bool.noConfusion
            · rw [List.get?_set_ne _ _ (fun heq => hij heq.symm)] at hj
              exact hacq j x hj hx

/-- A filter whose members all map to one value has at most one element when
the mapped list has no duplicates. -/
lemma filter_length_le_one {α β : Type} (f : α → β) (p : α → Bool) (v : β) :
    ∀ (l : List α), (l.map f).Nodup → (∀ x ∈ l, p x = true → f x = v) →
      (l.filter p).length ≤ 1
  | [], _, _ => by simp
  | x :: xs, hnd, hall => by
    rw [List.map_cons, List.nodup_cons] at hnd
    obtain ⟨hx, hxs⟩ := hnd
    by_cases hp : p x = true
    · rw [List.filter_cons_of_pos hp]
      have hnil : xs.filter p = [] := by
        rw [List.filter_eq_nil]
        intro y hy hpy
        have h1 : f y = v := hall y (List.mem_cons_of_mem x hy) hpy
        have h2 : f x = v := hall x (List.mem_cons_self x xs) hp
        exact hx (by rw [h2, ← h1]; exact List.mem_map_of_mem f hy)
      rw [hnil]
      simp
    · rw [List.filter_cons_of_neg (by simpa using hp)]
      exact filter_length_le_one f p v xs hxs
        (fun y hy hpy => hall y (List.mem_cons_of_mem x hy) hpy)

/-- Under the invariant, at most one handle reports held. -/
lemma heldCount_le_one_of_inv (n : Nat) (s : SysState) (hinv : LockInv n s) :
    heldCount s ≤ 1 := by
  obtain ⟨htok, hacq⟩ := hinv
  have hnd : (s.handles.map (fun l => l.token)).Nodup := by
    rw [htok]
    exact List.nodup_range n
  cases hs : s.store with
  | none =>
    have hempty : s.handles.filter IsHeld = [] := by
      rw [List.filter_eq_nil]
      intro x hx hp
      obtain ⟨j, hj⟩ := List.mem_iff_get?.mp hx
      have h2 := hacq j x hj hp
      rw [hs] at h2
      exact Option.noConfusion h2
    unfold heldCount
    rw [hempty]
    simp
  | some v =>
    refine filter_length_le_one (fun l => l.token) IsHeld v s.handles hnd ?_
    intro x hx hp
    obtain ⟨j, hj⟩ := List.mem_iff_get?.mp hx
    have h2 := hacq j x hj hp
    rw [hs] at h2
    exact (Option.some.inj h2).symm

/-- Non-expiry runs preserve the invariant. -/
lemma lockInv_run (n : Nat) :
    ∀ (steps : List Step) (s : SysState), Step.expire ∉ steps → LockInv n s →
      LockInv n (steps.foldl applyStep s)
  | [], _, _, hs => hs
  | st :: rest, s, hmem, hs => by
    have hst : st ≠ Step.expire :=
      fun heq => hmem (by rw [heq]; exact List.mem_cons_self _ _)
    have h2 : Step.expire ∉ rest := fun hr => hmem (List.mem_cons_of_mem st hr)
    exact lockInv_run n rest (applyStep s st) h2 (lockInv_applyStep n s hs st hst)

/-- C4 counterexample.  A run using a TTL-expiry step reaches a state where
both handles report IsHeld() == true: handle 0 acquires, the entry expires,
handle 1 acquires; handle 0's stale local flag is still set because IsHeld
is a cached flag, not a live check. -/
theorem C4_counterexample :
    heldCount (runSteps 2 [Step.acquire 0, Step.expire, Step.acquire 1]) = 2 := by
  decide

/-- C4 amended.  At every reachable state of every run without TTL-expiry
steps, at most one handle reports IsHeld() == true. -/
theorem C4_mutual_exclusion_without_expiry (n : Nat) (steps : List Step)
    (h : Step.expire ∉ steps) : heldCount (runSteps n steps) ≤ 1 :=
  heldCount_le_one_of_inv n (runSteps n steps)
    (lockInv_run n steps (initSys n) h (lockInv_init n))

/-- Witness for C4 at a concrete expiry-free contention run. -/
theorem C4_mutual_exclusion_witness :
    heldCount (runSteps 2 [Step.acquire 0, Step.acquire 1, Step.release 0,
      Step.acquire 1, Step.extend 1]) ≤ 1 :=
  C4_mutual_exclusion_without_expiry 2 [Step.acquire 0, Step.acquire 1,
    Step.release 0, Step.acquire 1, Step.extend 1] (by decide)

/-- C5.  A handle whose local flag is set but whose entry now stores another
holder's token fails Release and Extend with LockNotHeld, leaves the other
holder's entry untouched, and afterwards reports IsHeld() == false. -/
theorem C5_release_extend_token_safety (v : Nat) (l : RedisLock)
    (hacq : l.acquired = true) (hneq : v ≠ l.token) :
    Release (some v) l = (some v, { l with acquired := false },
      some LockError.lockNotHeld) ∧
    Extend (some v) l = (some v, { l with acquired := false },
      some LockError.lockNotHeld) ∧
    IsHeld { l with acquired := false } = false := by
  have hne : ¬ (some v : Option Nat) = some l.token :=
    fun h => hneq (Option.some.inj h)
  have hfalse : ¬ l.acquired = false := by
    rw [hacq]
    exact Bool.noConfusion
  refine ⟨?_, ?_, rfl⟩
  · unfold Release
    rw [if_neg hfalse, if_neg hne]
  · unfold Extend
    rw [if_neg hfalse, if_neg hne]

/-- Witness for C5 at a concrete stale handle. -/
theorem C5_release_extend_token_safety_witness :
    Release (some 99) ⟨7, true⟩ = (some 99, ⟨7, false⟩,
      some LockError.lockNotHeld) ∧
    Extend (some 99) ⟨7, true⟩ = (some 99, ⟨7, false⟩,
      some LockError.lockNotHeld) ∧
    IsHeld ⟨7, false⟩ = false :=
  C5_release_extend_token_safety 99 ⟨7, true⟩ rfl (by decide)

/-- C10.  A second Acquire by the current holder (its token is the stored
value) fails with LockNotAcquired, leaving the stored entry and the handle
(including its held flag) unchanged: SET NX is blocked by the handle's own
live entry exactly as by another holder's. -/
theorem C10_acquire_not_reentrant (l : RedisLock) (hacq : l.acquired = true) :
    Acquire (some l.token) l = (some l.token, l, some LockError.lockNotAcquired) :=
  rfl

/-- Witness for C10 at a concrete holding handle. -/
theorem C10_acquire_not_reentrant_witness :
    Acquire (some 3) ⟨3, true⟩ = (some 3, ⟨3, true⟩,
      some LockError.lockNotAcquired) :=
  C10_acquire_not_reentrant ⟨3, true⟩ rfl

end Dispatcher
